import Mathlib

/-!
Verification development for the picobundler build orchestrator.

The definitions below are a shallow embedding of the Rust sources under
`cli/src/`.  Pure functions are translated directly; stateful code
(filesystem cache, status-reporter stacks) is modelled by explicit state
passing; fallible code returns `Option`/`Except`.  External crates
(`target-lexicon`, `owo-colors`, `tinyjson`) are modelled at their
interface, restricted to the finite universe of values this program uses;
each such model is documented at its definition site.
-/

namespace Picobundler

/-! ## Target triple model

Models `target_lexicon::Triple` (external crate) restricted to the
architectures, vendors, operating systems and environments that the
picobundler code distinguishes.  `OperatingSystem.darwin` and
`OperatingSystem.macosx` correspond to `Darwin(_)` and `MacOSX(_)`;
`Environment.android` inhabits the crate's "other environment" arms and
`OperatingSystem.freebsd` its "other OS" arms. -/

inductive Architecture where
| x86_64
| aarch64
| i686
deriving DecidableEq, Repr

inductive Vendor where
| unknown
| pc
| apple
deriving DecidableEq, Repr

inductive OperatingSystem where
| linux
| darwin
| macosx
| windows
| freebsd
deriving DecidableEq, Repr

inductive Environment where
| gnu
| musl
| msvc
| unknown
| android
deriving DecidableEq, Repr

structure Triple where
  architecture : Architecture
  vendor : Vendor
  operating_system : OperatingSystem
  environment : Environment
deriving DecidableEq, Repr

/-- Rendering of `Architecture` by the target-lexicon `Display` impl. -/
def Architecture.toString : Architecture → String
| .x86_64 => "x86_64"
| .aarch64 => "aarch64"
| .i686 => "i686"

def Vendor.toString : Vendor → String
| .unknown => "unknown"
| .pc => "pc"
| .apple => "apple"

def OperatingSystem.toString : OperatingSystem → String
| .linux => "linux"
| .darwin => "darwin"
| .macosx => "macosx"
| .windows => "windows"
| .freebsd => "freebsd"

def Environment.toString : Environment → String
| .gnu => "gnu"
| .musl => "musl"
| .msvc => "msvc"
| .unknown => "unknown"
| .android => "android"

/-- Models target-lexicon's `Display for Triple`: `arch-vendor-os` with the
environment appended when it is not `Unknown`. -/
def displayTriple (t : Triple) : String :=
  t.architecture.toString ++ "-" ++ t.vendor.toString ++ "-" ++
    t.operating_system.toString ++
    (if t.environment = Environment.unknown then ""
     else "-" ++ t.environment.toString)

/-- Models target-lexicon's `Triple::from_str` as a lookup over the finite
universe of triples exercised by this program (canonical spellings). -/
def tripleTable : List (String × Triple) :=
  [ ("x86_64-unknown-linux-gnu", ⟨.x86_64, .unknown, .linux, .gnu⟩),
    ("aarch64-unknown-linux-gnu", ⟨.aarch64, .unknown, .linux, .gnu⟩),
    ("x86_64-pc-linux-gnu", ⟨.x86_64, .pc, .linux, .gnu⟩),
    ("x86_64-pc-windows-gnu", ⟨.x86_64, .pc, .windows, .gnu⟩),
    ("x86_64-apple-darwin", ⟨.x86_64, .apple, .darwin, .unknown⟩),
    ("aarch64-apple-darwin", ⟨.aarch64, .apple, .darwin, .unknown⟩),
    ("x86_64-pc-windows-msvc", ⟨.x86_64, .pc, .windows, .msvc⟩),
    ("x86_64-unknown-linux-musl", ⟨.x86_64, .unknown, .linux, .musl⟩),
    ("x86_64-unknown-freebsd", ⟨.x86_64, .unknown, .freebsd, .unknown⟩),
    ("aarch64-unknown-linux-android", ⟨.aarch64, .unknown, .linux, .android⟩) ]

def parseTriple (s : String) : Option Triple :=
  (tripleTable.find? (fun e => e.1 = s)).map (·.2)

/-! ## Character-level string utilities

Rust `str::find`, slicing and `eq_ignore_ascii_case` are modelled on
`List Char` (all strings involved are ASCII, where byte indices and
character indices coincide). -/

/-- `leadsList pat l` is true when `pat` occurs at the very start of `l`
(Rust `str::starts_with`). -/
def leadsList : List Char → List Char → Bool
| [], _ => true
| _ :: _, [] => false
| a :: as, b :: bs => a == b && leadsList as bs

/-- Auxiliary scanner for `firstOcc`, carrying the index of the current
position. -/
def firstOccAux (pat : List Char) : List Char → Nat → Option Nat
| l, i =>
  if leadsList pat l then some i
  else
    match l with
    | [] => none
    | _ :: t => firstOccAux pat t (i + 1)

/-- Index of the first occurrence of `pat` in `l` (Rust `str::find`). -/
def firstOcc (pat l : List Char) : Option Nat :=
  firstOccAux pat l 0

/-- Substring test (used to state containment properties). -/
def containsList (pat l : List Char) : Bool :=
  (firstOcc pat l).isSome

/-- Rust `u8::to_ascii_lowercase` on chars. -/
def toLowerAscii (c : Char) : Char :=
  if 'A' ≤ c ∧ c ≤ 'Z' then Char.ofNat (c.toNat + 32) else c

/-- Rust `str::eq_ignore_ascii_case`. -/
def eqIgnoreCase (a b : String) : Bool :=
  a.data.map toLowerAscii == b.data.map toLowerAscii

/-! ## BuildTarget (`cli/src/build/mod.rs`) -/

inductive BuildTarget where
| triple (t : Triple)
| tripleGlibc (t : Triple) (glibc : String)
| appleUniversal
deriving DecidableEq, Repr

/-- `BuildTarget::is_supported` (`build/mod.rs:44-59`). -/
def BuildTarget.is_supported (self : BuildTarget) (triple : Triple) : Bool :=
  match self with
  | .triple target =>
      target.architecture = triple.architecture ∧
        target.operating_system = triple.operating_system
  | .tripleGlibc target _ =>
      target.architecture = triple.architecture ∧
        target.operating_system = triple.operating_system
  | .appleUniversal =>
      triple.operating_system = OperatingSystem.darwin ∨
        triple.operating_system = OperatingSystem.macosx

/-- `impl Display for BuildTarget` (`build/mod.rs:62-70`). -/
def renderBuildTarget : BuildTarget → String
| .triple t => displayTriple t
| .tripleGlibc t glibc => displayTriple t ++ "." ++ glibc
| .appleUniversal => "universal-apple-darwin"

def gnuDot : List Char := ['g', 'n', 'u', '.']

/-- `impl FromStr for BuildTarget` (`build/mod.rs:72-90`): the literal
`universal-apple-darwin` case-insensitively, else a triple with an optional
libc version after the first `gnu.`, else a plain triple. -/
def parseBuildTarget (s : String) : Option BuildTarget :=
  if eqIgnoreCase s "universal-apple-darwin" then
    some .appleUniversal
  else
    match firstOcc gnuDot s.data with
    | some index =>
        (parseTriple (String.mk (s.data.take (index + 3)))).map
          (fun t => .tripleGlibc t (String.mk (s.data.drop (index + 4))))
    | none => (parseTriple s).map .triple

/-! ## Error model (`cli/src/cli/error.rs`)

`Error::new` also snapshots the calling thread's span stack into `trace`;
the snapshot is ambient state irrelevant to the claims below, so `new`
models it as empty. -/

structure Error where
  message : String
  trace : List String
  note : List String
deriving DecidableEq, Repr

def Error.new (message : String) : Error :=
  { message := message, trace := [], note := [] }

def Error.with_note (e : Error) (note : String) : Error :=
  { e with note := e.note ++ [note] }

def Error.with_message (e : Error) (message : String) : Error :=
  { e with message := message }

/-! ## Cross-compilation shim triple (`cli/src/build/zig.rs`) -/

/-- `zig_triple` (`zig.rs:5-56`): the string is assembled left to right —
architecture, `-`, OS name, optional `-<env>`, optional `.<libc>` — with
early returns on an unsupported OS or environment.  Error messages are
kept without the terminal-styling escapes added by `owo-colors`. -/
def zig_triple (triple : Triple) (glibc : Option String) : Except Error String :=
  let osPart : Except Error String :=
    match triple.operating_system with
    | .linux => .ok "linux"
    | .darwin | .macosx => .ok "macos"
    | .windows => .ok "windows"
    | _ =>
        .error ((Error.new ("unsupported target: " ++ displayTriple triple)).with_note
          "unsupported operating system: only linux, macos, and windows are supported")
  match osPart with
  | .error e => .error e
  | .ok os =>
      let envPart : Except Error String :=
        match triple.environment with
        | .gnu => .ok ("-" ++ "gnu")
        | .musl => .ok ("-" ++ "musl")
        | .msvc => .ok ("-" ++ "msvc")
        | .unknown => .ok ""
        | _ =>
            .error ((Error.new ("unsupported target: " ++ displayTriple triple)).with_note
              "unsupported environment: only gnu, musl and msvc are supported")
      match envPart with
      | .error e => .error e
      | .ok env =>
          let base := triple.architecture.toString ++ "-" ++ os ++ env
          .ok (match glibc with
            | some g => base ++ "." ++ g
            | none => base)

/-- The shim-triple value attached to an `IntermediateArtifact`, as computed
by `build_libraries` (`build/mod.rs:277-282` for plain triples,
`build/mod.rs:307-308` for libc-versioned ones, `build/mod.rs:379` for the
universal pseudo-target). -/
def shimTriple (host : Triple) : BuildTarget → Except Error (Option String)
| .triple t =>
    if BuildTarget.is_supported (.triple t) host then .ok none
    else
      match zig_triple t none with
      | .ok s => .ok (some s)
      | .error e => .error e
| .tripleGlibc t glibc =>
    match zig_triple t (some glibc) with
    | .ok s => .ok (some s)
    | .error e => .error e
| .appleUniversal => .ok none

/-- The Apple architecture selector attached to an `IntermediateArtifact`,
as computed by `build_libraries` (`build/mod.rs:270-276` for plain triples,
`build/mod.rs:328` for libc-versioned ones, `build/mod.rs:380` for the
universal pseudo-target). -/
def intermediateOsxArch : BuildTarget → Option String
| .triple t =>
    if t.operating_system = OperatingSystem.macosx then none
    else
      match t.architecture with
      | .aarch64 => some "arm64"
      | .x86_64 => some "x86_64"
      | _ => none
| .tripleGlibc _ _ => none
| .appleUniversal => some "x86_64;arm64"

/-! ## Orchestrator needs-cross decision (`cli/src/build/mod.rs:151-158`)

The Rust code compares against the compile-time constant
`target_lexicon::HOST`; the host triple is a parameter here. -/

def useZig (host : Triple) (targets : List BuildTarget) : Bool :=
  targets.any fun x =>
    match x with
    | .triple t => decide (t ≠ host)
    | .tripleGlibc _ _ => true
    | .appleUniversal =>
        decide (¬(host.operating_system = OperatingSystem.darwin ∨
          host.operating_system = OperatingSystem.macosx))

/-- `use_cmake` (`build/mod.rs:159`). -/
def useCmake (host : Triple) (vst3 : Bool) (auv2 : Bool)
    (targets : List BuildTarget) : Bool :=
  vst3 || auv2 || useZig host targets

/-- Claim C2 as the spec words it: needs-cross = some target is not
host-supported (`is_supported`: architecture and operating system match),
or uses an explicit libc version, or is universal with a non-Apple host. -/
def specNeedsCross (host : Triple) (targets : List BuildTarget) : Bool :=
  targets.any fun x =>
    match x with
    | .triple t => !(BuildTarget.is_supported (.triple t) host)
    | .tripleGlibc _ _ => true
    | .appleUniversal =>
        decide (¬(host.operating_system = OperatingSystem.darwin ∨
          host.operating_system = OperatingSystem.macosx))

/-- Claim C5 as the spec words it: the shim triple is absent when the
target is host-supported with no libc version; otherwise
`<arch>-<os>[-<env>][.<libc>]` with `<os>` ∈ {linux, macos, windows} and
`<env>` ∈ {gnu, musl, msvc} or absent; unsupported OS or environment is a
failure (`none` here). -/
def specShimOsName : OperatingSystem → Option String
| .linux => some "linux"
| .darwin => some "macos"
| .macosx => some "macos"
| .windows => some "windows"
| .freebsd => none

def specShimEnvName : Environment → Option String
| .gnu => some "-gnu"
| .musl => some "-musl"
| .msvc => some "-msvc"
| .unknown => some ""
| .android => none

def specShimString (t : Triple) (libc : Option String) : Option String :=
  match specShimOsName t.operating_system, specShimEnvName t.environment with
  | some os, some env =>
      let base := t.architecture.toString ++ "-" ++ os ++ env
      some (match libc with
        | some g => base ++ "." ++ g
        | none => base)
  | _, _ => none

def specShimTriple (host : Triple) : BuildTarget → Option (Option String)
| .triple t =>
    if BuildTarget.is_supported (.triple t) host then some none
    else (specShimString t none).map some
| .tripleGlibc t glibc => (specShimString t (some glibc)).map some
| .appleUniversal => some none

/-! ## Pretty-printed command reproduction (`cli/src/cli/cmd.rs:167-204`)

`owo-colors` styling is modelled by the exact ANSI sequences the crate
writes: a foreground color `n` is `ESC[nm … ESC[39m` (bright yellow 93,
bright blue 94, bright black 90) and bold is `ESC[1m … ESC[0m`. -/

def ansiFg (n : String) (s : String) : String :=
  "\x1b[" ++ n ++ "m" ++ s ++ "\x1b[39m"

def ansiBold (s : String) : String :=
  "\x1b[1m" ++ s ++ "\x1b[0m"

inductive Component where
| env (key value : String)
| cmd (c : String)
| arg (a : String)
| argSecret (a : String)
deriving DecidableEq, Repr

/-- Rendering of one `Component` inside `format_program`
(`cmd.rs:174-204`). -/
def renderComponent : Component → String
| .env key value => ansiBold (ansiFg "93" key) ++ "=" ++ ansiFg "94" value ++ " "
| .cmd c => ansiBold (ansiFg "94" c)
| .arg a => " " ++ ansiFg "90" a
| .argSecret a => " " ++ ansiFg "90" (String.mk (a.data.take 3)) ++ "**"

/-- `format_program` (`cmd.rs:174-204`): the in-order concatenation of the
component renderings into one buffer. -/
def format_program : List Component → String
| [] => ""
| c :: rest => renderComponent c ++ format_program rest

/-- Claim C6 as stated: for a secret argument `s` of a command, the
reproduction does not contain `s` itself and contains the first three
characters of `s` followed by `**`. -/
def secretRedactionClaim (cs : List Component) (s : String) : Prop :=
  Component.argSecret s ∈ cs →
    containsList s.data (format_program cs).data = false ∧
      containsList (s.data.take 3 ++ ['*', '*']) (format_program cs).data = true

/-! ## Cargo invocation (`cli/src/build/cargo.rs`)

The structured diagnostic stream is modelled at the `CargoMessage` level:
each stdout line is either `none` (the `FromStr` parse at
`cargo.rs:208-268` failed, e.g. the line does not start with `{`) or the
decoded message.  JSON decoding itself is the external `tinyjson` crate. -/

inductive CargoCrateType where
| cdylib
| staticlib
deriving DecidableEq, Repr

inductive CargoMessage where
| nativeStaticLibs (package : String) (libs : String)
| compilerMessage (rendered : String)
| other
deriving DecidableEq, Repr

/-- `HashMap::insert`: replace the value when the key is present, add the
entry otherwise (keys stay distinct). -/
def mapInsert (m : List (String × String)) (k v : String) : List (String × String) :=
  if m.any (fun e => e.1 == k) then
    m.map (fun e => if e.1 == k then (k, v) else e)
  else m ++ [(k, v)]

def mapLookup (m : List (String × String)) (k : String) : Option String :=
  (m.find? (fun e => e.1 == k)).map (·.2)

/-- `HashMap::remove`: return the stored value and drop the entry. -/
def mapRemove (m : List (String × String)) (k : String) :
    Option String × List (String × String) :=
  (mapLookup m k, m.filter (fun e => ¬ e.1 == k))

/-- The stdout callback loop of `cargo_build` (`cargo.rs:80-97`): collect
rendered compiler messages in order and fold `native-static-libs` records
into a per-package map. -/
def collectMessages (lines : List (Option CargoMessage)) :
    List String × List (String × String) :=
  lines.foldl
    (fun acc line =>
      match line with
      | some (.nativeStaticLibs package libs) => (acc.1, mapInsert acc.2 package libs)
      | some (.compilerMessage rendered) => (acc.1 ++ [rendered], acc.2)
      | _ => acc)
    ([], [])

/-- The `map_err` closure of `cargo_build` (`cargo.rs:98-108`), applied to
the subprocess error when the compiler exits nonzero. -/
def cargoFailureError (compiler_messages : List String) (e : Error) : Error :=
  let message :=
    if compiler_messages.isEmpty then
      "compilation error. check the cargo output in --verbose mode for more info"
    else String.intercalate "\n" compiler_messages
  (e.with_message message).with_note "compilation failure while running cargo"

/-- `cargo_normalize_package_name` (`cargo.rs:270-272`). -/
def cargo_normalize_package_name (name : String) : String :=
  String.mk (name.data.map (fun c => if c = '-' then '_' else c))

/-- `cargo_output_path` (`cargo.rs:274-324`), with paths as `/`-joined
strings. -/
def cargo_output_path (target : String) (profile : String) (triple : Triple)
    (package_name : String) (crate_type : CargoCrateType) : Except Error String :=
  let package_name := cargo_normalize_package_name package_name
  let filename : Except Error String :=
    match triple.operating_system, triple.environment, crate_type with
    | .linux, _, .cdylib => .ok ("lib" ++ package_name ++ ".so")
    | .linux, _, .staticlib => .ok ("lib" ++ package_name ++ ".a")
    | .macosx, _, .cdylib | .darwin, _, .cdylib => .ok ("lib" ++ package_name ++ ".dylib")
    | .macosx, _, .staticlib | .darwin, _, .staticlib => .ok ("lib" ++ package_name ++ ".a")
    | .windows, _, .cdylib => .ok (package_name ++ ".dll")
    | .windows, .msvc, .staticlib => .ok (package_name ++ ".lib")
    | .windows, _, .staticlib => .ok ("lib" ++ package_name ++ ".a")
    | _, _, _ =>
        .error (Error.new ("unsupported target: " ++ triple.operating_system.toString ++ " "))
  match filename with
  | .error e => .error e
  | .ok filename =>
      let profile_dir :=
        if profile = "release" ∨ profile = "bench" then "release"
        else if profile = "dev" ∨ profile = "test" then "debug"
        else profile
      .ok (target ++ "/" ++ displayTriple triple ++ "/" ++ profile_dir ++ "/" ++ filename)

structure CargoArtifact where
  package : String
  path : String
  native_static_libs : Option String
deriving DecidableEq, Repr

/-- The artifact-assembly loop of `cargo_build` (`cargo.rs:110-132`): one
artifact per requested package, in request order, taking the package's
native-static-libs entry out of the map and predicting the on-disk path. -/
def cargoArtifactsLoop (target_dir : String) (profile : String) (triple : Triple)
    (crate_type : CargoCrateType) :
    List String → List (String × String) → Except Error (List CargoArtifact)
| [], _ => .ok []
| package :: rest, m =>
    match cargo_output_path target_dir profile triple package crate_type with
    | .error e => .error e
    | .ok path =>
        match cargoArtifactsLoop target_dir profile triple crate_type rest
            (mapRemove m (cargo_normalize_package_name package)).2 with
        | .error e => .error e
        | .ok tail =>
            .ok ({ package := package, path := path,
                   native_static_libs :=
                     (mapRemove m (cargo_normalize_package_name package)).1 } :: tail)

/-- `cargo_build` after a successful compiler run (`cargo.rs:110-132`),
fed with the collected structured stream. -/
def cargoArtifacts (target_dir : String) (profile : String) (triple : Triple)
    (crate_type : CargoCrateType) (packages : List String)
    (lines : List (Option CargoMessage)) : Except Error (List CargoArtifact) :=
  cargoArtifactsLoop target_dir profile triple crate_type packages
    (collectMessages lines).2

/-! ## Wrapper builder (`cli/src/build/cmake.rs`)

Only the pure part of `build_wrapper` is modelled: the output record it
returns once both CMake invocations succeed (`cmake.rs:91-104`).
`Path::with_extension` is modelled as appending `.<ext>` (package names
contain no `.`). -/

structure ClapWrapperOptions where
  cmake_dir : String
  build_dir : String
  package_name : String
  static_lib : String
  native_static_libs : Option String
  zig_triple : Option String
  osx_arch : Option String
  vst3 : Option String
  auv2 : Bool
deriving DecidableEq, Repr

structure ClapWrapperOutput where
  clap : String
  vst3 : Option String
  auv2 : Option String
deriving DecidableEq, Repr

def build_wrapper (options : ClapWrapperOptions) : ClapWrapperOutput :=
  let build_dir := options.build_dir ++ "/" ++
    (match options.zig_triple with
     | some triple => triple
     | none => "host")
  let output := build_dir ++ "/clap-wrapper-output/" ++ options.package_name ++
    "/" ++ options.package_name
  { clap := output ++ ".clap"
    vst3 := options.vst3.map (fun _ => output ++ ".vst3")
    auv2 :=
      if options.auv2 && options.osx_arch.isSome then some (output ++ ".component")
      else none }

/-- In-place mutation of the first element satisfying `p`
(Rust `iter_mut().find(..)` followed by a mutation). -/
def updateFirst (p : α → Bool) (f : α → α) : List α → List α
| [] => []
| x :: xs => if p x then f x :: xs else x :: updateFirst p f xs

/-! ## Dependency cache (`cli/src/build/cache.rs`)

The cache root is a flat map from directory name to abstract directory
contents (`List String`, the items written so far).  `load` is modelled as
the sequence of filesystem states it goes through; `load_item`
(`cache.rs:71-101`) shells out to git or a downloader and is abstracted as
the `payload` list of items it writes into the directory it is given. -/

inductive Dependency where
| selfCmake (commit : String)
| vst3OSS (commit : String)
| vst3Proprietary
deriving DecidableEq, Repr

/-- `Dependency::folder_name` (`cache.rs:15-21`). -/
def Dependency.folder_name : Dependency → String
| .selfCmake commit => "picobundler-cmake-" ++ commit
| .vst3OSS commit => "vst3-sdk-" ++ commit
| .vst3Proprietary => "vst3-sdk-proprietary"

abbrev FS : Type := List (String × List String)

def dirExists (fs : FS) (name : String) : Bool :=
  List.any fs (fun e => e.1 == name)

def removeDirAll (fs : FS) (name : String) : FS :=
  List.filter (fun e => ¬ e.1 == name) fs

def createDir (fs : FS) (name : String) : FS :=
  fs ++ [(name, [])]

def dirContents (fs : FS) (name : String) : Option (List String) :=
  (List.find? (fun e => e.1 == name) fs).map (·.2)

def addItem (fs : FS) (name : String) (item : String) : FS :=
  updateFirst (fun e => e.1 == name) (fun e => (e.1, e.2 ++ [item])) fs

def renameDir (fs : FS) (old : String) (new : String) : FS :=
  removeDirAll fs old ++ [(new, (dirContents fs old).getD [])]

/-- The filesystem states after each item written by `load_item`. -/
def populateTrace (tmp : String) : List String → FS → List FS
| [], _ => []
| item :: rest, fs =>
    let fs' := addItem fs tmp item
    fs' :: populateTrace tmp rest fs'

/-- `DependencyCache::load` (`cache.rs:47-69`) as the list of filesystem
states it passes through, in order, starting from the initial state: early
return on an existing entry; otherwise remove a stale `tmp-` directory,
create it empty, populate it, and rename it onto the final name. -/
def loadTrace (dep : Dependency) (payload : List String) (fs : FS) : List FS :=
  let final := dep.folder_name
  let tmp := "tmp-" ++ dep.folder_name
  if dirExists fs final then [fs]
  else
    let s1 := if dirExists fs tmp then removeDirAll fs tmp else fs
    let s2 := createDir s1 tmp
    let populated := populateTrace tmp payload s2
    let s3 := populated.getLastD s2
    fs :: s1 :: s2 :: populated ++ [renameDir s3 tmp final]

/-- The filesystem state after `load` returns. -/
def loadFS (dep : Dependency) (payload : List String) (fs : FS) : FS :=
  (loadTrace dep payload fs).getLastD fs

/-- The path `load` returns: `root.join(item.folder_name())`
(`cache.rs:50`). -/
def loadPath (root : String) (dep : Dependency) : String :=
  root ++ "/" ++ dep.folder_name

/-! ## Status reporter (`cli/src/cli/trace.rs`)

The process-wide stack map is a `Vec<(ThreadId, Vec<StatusTrace>)>`;
thread ids are modelled as `Nat`.  The top of a stack is the *last* vector
element, matching `push`/`pop`/`last_mut`. -/

structure StatusTrace where
  span : String
  message : String
deriving DecidableEq, Repr

abbrev Stacks : Type := List (Nat × List StatusTrace)

/-- Overwrite the `message` of the last element, if any
(Rust `stack.last_mut().map(|x| x.message = message)`). -/
def setLastMessage (message : String) : List StatusTrace → List StatusTrace
| [] => []
| [x] => [{ x with message := message }]
| x :: y :: rest => x :: setLastMessage message (y :: rest)

/-- `StatusReporter::report_start` (`trace.rs:64-78`). -/
def report_start (thread : Nat) (span : String) (ss : Stacks) : Stacks :=
  let trace : StatusTrace := { span := span, message := span }
  if List.any ss (fun e => e.1 == thread) then
    updateFirst (fun e => e.1 == thread) (fun e => (e.1, e.2 ++ [trace])) ss
  else ss ++ [(thread, [trace])]

/-- `StatusReporter::report_message` (`trace.rs:52-62`). -/
def report_message (thread : Nat) (message : String) (ss : Stacks) : Stacks :=
  updateFirst (fun e => e.1 == thread) (fun e => (e.1, setLastMessage message e.2)) ss

/-- `StatusReporter::report_end` (`trace.rs:80-97`): pop the top span of
the thread's stack; when the stack becomes empty, retain only the other
threads' entries; report `false` and change nothing when the thread has no
entry. -/
def report_end (thread : Nat) (ss : Stacks) : Bool × Stacks :=
  match List.find? (fun e => e.1 == thread) ss with
  | none => (false, ss)
  | some e =>
      let stacks' := updateFirst (fun en => en.1 == thread)
        (fun en => (en.1, en.2.dropLast)) ss
      if e.2.dropLast.isEmpty then
        (true, List.filter (fun x => ¬ x.1 == thread) stacks')
      else (true, stacks')

/-- The invariant of claim C10: no thread entry ever holds an empty span
stack. -/
def stacksWF (ss : Stacks) : Prop :=
  ∀ e ∈ ss, e.2 ≠ []

def exceptOk : Except Error α → Option α
| .ok v => some v
| .error _ => none

/-! ## Claim C3 -/

/-- Claim C3 as the spec words it: for Darwin targets the selector is
`arm64` for 64-bit ARM and `x86_64` for 64-bit x86, absent for every
non-Darwin target; for the universal pseudo-target it is the literal
`arm64;x86_64`. -/
def specOsxArch : BuildTarget → Option String
| .triple t =>
    if t.operating_system = OperatingSystem.darwin ∨
        t.operating_system = OperatingSystem.macosx then
      match t.architecture with
      | .aarch64 => some "arm64"
      | .x86_64 => some "x86_64"
      | _ => none
    else none
| .tripleGlibc _ _ => none
| .appleUniversal => some "arm64;x86_64"

/-- Claim C3 as the amendment has it: the selector is computed from the
architecture alone (it is also attached to non-Darwin plain triples), the
`MacOSX`-flavored OS and libc-versioned targets get none, and the
universal literal is `x86_64;arm64`. -/
def amendedOsxArch : BuildTarget → Option String
| .triple t =>
    if t.operating_system = OperatingSystem.macosx then none
    else if t.architecture = Architecture.aarch64 then some "arm64"
    else if t.architecture = Architecture.x86_64 then some "x86_64"
    else none
| .tripleGlibc _ _ => none
| .appleUniversal => some "x86_64;arm64"

/-- Claim C3, counterexample: for the Apple universal pseudo-target the
code attaches the literal `x86_64;arm64`, not the claimed `arm64;x86_64`
(and a 64-bit x86 Linux target gets `x86_64` where the claim demands
absence). -/
theorem c3_osx_arch_counterexample :
    intermediateOsxArch BuildTarget.appleUniversal ≠
      specOsxArch BuildTarget.appleUniversal ∧
    intermediateOsxArch
        (BuildTarget.triple ⟨.x86_64, .unknown, .linux, .gnu⟩) ≠
      specOsxArch (BuildTarget.triple ⟨.x86_64, .unknown, .linux, .gnu⟩) := by
  decide

/-- Claim C3, amended: the Apple architecture selector attached to an
`IntermediateArtifact` is `arm64`/`x86_64` by architecture for every plain
triple whose OS is not the `MacOSX` variant (Darwin or not), absent for
other architectures, for `MacOSX`-variant targets and for libc-versioned
targets, and exactly `x86_64;arm64` for the universal pseudo-target. -/
theorem c3_osx_arch_amended :
    ∀ bt : BuildTarget, intermediateOsxArch bt = amendedOsxArch bt := by
  intro bt
  cases bt with
  | triple t =>
      obtain ⟨a, v, o, e⟩ := t
      cases a <;> cases o <;> rfl
  | tripleGlibc t g => rfl
  | appleUniversal => rfl

/-! ## Claim C8 -/

/-- Claim C8 as stated: the wrapper output has a VST3 path iff a VST3 SDK
path was supplied and an AUv2 path iff the AUv2 request flag was set. -/
def specWrapperOutputClaim (options : ClapWrapperOptions) : Prop :=
  (build_wrapper options).vst3.isSome = options.vst3.isSome ∧
    (build_wrapper options).auv2.isSome = options.auv2

/-- Claim C8, counterexample: with the AUv2 flag set but no Apple
architecture selector, `build_wrapper` returns no AUv2 path. -/
theorem c8_wrapper_output_counterexample :
    ¬ specWrapperOutputClaim
      { cmake_dir := "cm", build_dir := "bd", package_name := "pkg",
        static_lib := "sl", native_static_libs := none, zig_triple := none,
        osx_arch := none, vst3 := none, auv2 := true } := by
  unfold specWrapperOutputClaim
  decide

/-- Claim C8, amended: the returned record always carries a CLAP path,
carries a VST3 path iff a VST3 SDK path was supplied in the request, and
carries an AUv2 path iff the AUv2 flag was set *and* the Apple
architecture selector is present. -/
theorem c8_wrapper_output_amended :
    ∀ options : ClapWrapperOptions,
      (build_wrapper options).vst3.isSome = options.vst3.isSome ∧
        (build_wrapper options).auv2.isSome =
          (options.auv2 && options.osx_arch.isSome) := by
  intro options
  constructor
  · cases h : options.vst3 <;> simp [build_wrapper, h]
  · cases ha : options.auv2 <;> cases ho : options.osx_arch <;>
      simp [build_wrapper, ha, ho]

/-! ## Claim C2 -/

/-- Claim C2, counterexample: with host `x86_64-unknown-linux-gnu` and the
single target `x86_64-pc-linux-gnu` (same architecture and OS, different
vendor), the spec's needs-cross is false but the orchestrator decides
needs-cross (`use_zig`) by full triple equality with the host and gets
true. -/
theorem c2_needs_cross_counterexample :
    useZig ⟨.x86_64, .unknown, .linux, .gnu⟩
        [BuildTarget.triple ⟨.x86_64, .pc, .linux, .gnu⟩] = true ∧
      specNeedsCross ⟨.x86_64, .unknown, .linux, .gnu⟩
        [BuildTarget.triple ⟨.x86_64, .pc, .linux, .gnu⟩] = false := by
  decide

/-- Claim C2, amended: needs-cross is true iff some plain-triple target
differs from the host triple in any component (full equality, vendor and
environment included — not merely architecture/OS support), or some target
carries an explicit libc version, or the Apple universal pseudo-target is
requested on a non-Apple host. -/
theorem c2_needs_cross_amended :
    ∀ (host : Triple) (targets : List BuildTarget),
      useZig host targets = true ↔
        (∃ t, BuildTarget.triple t ∈ targets ∧ t ≠ host) ∨
          (∃ t g, BuildTarget.tripleGlibc t g ∈ targets) ∨
          (BuildTarget.appleUniversal ∈ targets ∧
            ¬(host.operating_system = OperatingSystem.darwin ∨
              host.operating_system = OperatingSystem.macosx)) := by
  intro host targets
  unfold useZig
  rw [List.any_eq_true]
  constructor
  · rintro ⟨x, hx, hfx⟩
    cases x with
    | triple t =>
        exact Or.inl ⟨t, hx, by simpa using hfx⟩
    | tripleGlibc t g =>
        exact Or.inr (Or.inl ⟨t, g, hx⟩)
    | appleUniversal =>
        exact Or.inr (Or.inr ⟨hx, by simpa using hfx⟩)
  · rintro (⟨t, ht, hne⟩ | ⟨t, g, ht⟩ | ⟨ht, hos⟩)
    · exact ⟨BuildTarget.triple t, ht, by simpa using hne⟩
    · exact ⟨BuildTarget.tripleGlibc t g, ht, rfl⟩
    · exact ⟨BuildTarget.appleUniversal, ht, by simpa using hos⟩

/-! ## Claim C7 -/

/-- Claim C7: when the compiler exits nonzero, the error's primary message
is the newline-joined concatenation of the rendered compiler-message
diagnostics collected from the structured stream, or the generic
verbose-mode hint when none were collected; the note "compilation failure
while running cargo" is attached; and for rendered texts "A" then "B" the
message is "A\nB". -/
theorem c7_cargo_failure_error :
    ∀ (lines : List (Option CargoMessage)) (e : Error),
      ((cargoFailureError (collectMessages lines).1 e).message =
          if (collectMessages lines).1 = [] then
            "compilation error. check the cargo output in --verbose mode for more info"
          else String.intercalate "\n" (collectMessages lines).1) ∧
        "compilation failure while running cargo" ∈
          (cargoFailureError (collectMessages lines).1 e).note ∧
        (collectMessages
            [some (CargoMessage.compilerMessage "A"),
             some (CargoMessage.compilerMessage "B")]).1 = ["A", "B"] ∧
        (cargoFailureError
            (collectMessages
              [some (CargoMessage.compilerMessage "A"),
               some (CargoMessage.compilerMessage "B")]).1 e).message = "A\nB" := by
  intro lines e
  refine ⟨?_, ?_, ?_, ?_⟩
  · cases h : (collectMessages lines).1 <;>
      simp [cargoFailureError, Error.with_message, Error.with_note, h]
  · simp [cargoFailureError, Error.with_message, Error.with_note]
  · rfl
  · rfl

/-! ## Claim C5 -/

/-- Claim C5: per concrete build target, the computed shim triple refines
the spec's description — absent exactly when the target is a plain triple
supported on the host (no libc version); otherwise
`<arch>-<os>[-<env>][.<libc>]` with `<os>` ∈ {linux, macos, windows} and
`<env>` ∈ {gnu, musl, msvc} or absent; and an unsupported OS or
environment fails with an unsupported-target error. -/
theorem c5_shim_triple :
    ∀ host : Triple,
      (∀ t : Triple,
        exceptOk (shimTriple host (BuildTarget.triple t)) =
          specShimTriple host (BuildTarget.triple t)) ∧
      (∀ (t : Triple) (g : String),
        exceptOk (shimTriple host (BuildTarget.tripleGlibc t g)) =
          specShimTriple host (BuildTarget.tripleGlibc t g)) ∧
      (∀ t : Triple,
        shimTriple host (BuildTarget.triple t) = Except.ok none ↔
          BuildTarget.is_supported (BuildTarget.triple t) host = true) ∧
      (∀ (t : Triple) (g : String),
        shimTriple host (BuildTarget.tripleGlibc t g) ≠ Except.ok none) := by
  intro host
  refine ⟨?_, ?_, ?_, ?_⟩
  · intro t
    obtain ⟨a, v, o, e⟩ := t
    by_cases h : BuildTarget.is_supported (BuildTarget.triple ⟨a, v, o, e⟩) host = true
    · simp [shimTriple, specShimTriple, exceptOk, h]
    · rw [Bool.not_eq_true] at h
      cases o <;> cases e <;>
        simp [shimTriple, specShimTriple, specShimString, specShimOsName,
          specShimEnvName, zig_triple, exceptOk, h, String.append_assoc]
  · intro t g
    obtain ⟨a, v, o, e⟩ := t
    cases o <;> cases e <;>
      simp [shimTriple, specShimTriple, specShimString, specShimOsName,
        specShimEnvName, zig_triple, exceptOk, String.append_assoc]
  · intro t
    obtain ⟨a, v, o, e⟩ := t
    by_cases h : BuildTarget.is_supported (BuildTarget.triple ⟨a, v, o, e⟩) host = true
    · simp [shimTriple, h]
    · rw [Bool.not_eq_true] at h
      cases o <;> cases e <;>
        simp [shimTriple, zig_triple, h]
  · intro t g
    obtain ⟨a, v, o, e⟩ := t
    cases o <;> cases e <;>
      simp [shimTriple, zig_triple]

/-! ## Claim C6 -/

theorem format_program_append (a b : List Component) :
    format_program (a ++ b) = format_program a ++ format_program b := by
  induction a with
  | nil => simp [format_program]
  | cons c rest ih => simp [format_program, ih, String.append_assoc]

theorem leadsList_self (p b : List Char) : leadsList p (p ++ b) = true := by
  induction p with
  | nil => simp [leadsList]
  | cons c rest ih => simp [leadsList, ih]

theorem firstOccAux_isSome_of_seg (p b : List Char) :
    ∀ (a : List Char) (i : Nat),
      (firstOccAux p (a ++ (p ++ b)) i).isSome = true := by
  intro a
  induction a with
  | nil =>
      intro i
      rw [firstOccAux.eq_def]
      simp [leadsList_self]
  | cons c rest ih =>
      intro i
      rw [firstOccAux.eq_def]
      by_cases h : leadsList p (c :: (rest ++ (p ++ b))) = true
      · simp [h]
      · simp [h, ih]

theorem containsList_of_seg (p a b : List Char) :
    containsList p (a ++ (p ++ b)) = true := by
  unfold containsList firstOcc
  exact firstOccAux_isSome_of_seg p b a 0

/-- Claim C6, counterexample: the secret `"ab"` (shorter than four
characters) appears in full in the pretty-printed reproduction of
`git <secret>`, because the redaction keeps the first three characters. -/
theorem c6_secret_redaction_counterexample :
    ¬ secretRedactionClaim [Component.cmd "git", Component.argSecret "ab"] "ab" := by
  intro h
  have hm : Component.argSecret "ab" ∈
      [Component.cmd "git", Component.argSecret "ab"] := by simp
  exact absurd (h hm).1 (by decide)

/-- Claim C6, amended: a secret argument `s` is rendered as a space, the
bright-black style-on sequence, the first three characters of `s`, the
style-off sequence, and `**`; the reproduction contains that redacted
rendering, and it depends on `s` only through its first three characters
(so nothing past them can leak, while secrets shorter than four characters
appear in full). -/
theorem c6_secret_redaction_amended :
    ∀ (pre suf : List Component) (s s' : String),
      (format_program (pre ++ Component.argSecret s :: suf) =
        format_program pre ++
          ((" " ++ ansiFg "90" (String.mk (s.data.take 3)) ++ "**") ++
            format_program suf)) ∧
      containsList (" " ++ ansiFg "90" (String.mk (s.data.take 3)) ++ "**").data
        (format_program (pre ++ Component.argSecret s :: suf)).data = true ∧
      (s.data.take 3 = s'.data.take 3 →
        format_program (pre ++ Component.argSecret s :: suf) =
          format_program (pre ++ Component.argSecret s' :: suf)) := by
  intro pre suf s s'
  have hdec : format_program (pre ++ Component.argSecret s :: suf) =
      format_program pre ++
        ((" " ++ ansiFg "90" (String.mk (s.data.take 3)) ++ "**") ++
          format_program suf) := by
    rw [format_program_append]
    simp [format_program, renderComponent, String.append_assoc]
  refine ⟨hdec, ?_, ?_⟩
  · rw [hdec]
    have hdata : (format_program pre ++
        ((" " ++ ansiFg "90" (String.mk (s.data.take 3)) ++ "**") ++
          format_program suf)).data =
        (format_program pre).data ++
          ((" " ++ ansiFg "90" (String.mk (s.data.take 3)) ++ "**").data ++
            (format_program suf).data) := by
      simp
    rw [hdata]
    exact containsList_of_seg _ _ _
  · intro h3
    rw [format_program_append, format_program_append]
    simp only [format_program, renderComponent, h3]

/-- Witness for `c6_secret_redaction_amended`: two secrets sharing the
first three characters produce the same reproduction. -/
theorem c6_secret_redaction_amended_witness :
    format_program [Component.cmd "git", Component.argSecret "secretvalue"] =
      format_program [Component.cmd "git", Component.argSecret "secABC"] :=
  (c6_secret_redaction_amended [Component.cmd "git"] [] "secretvalue" "secABC").2.2
    (by decide)

/-! ## Claim C10 -/

theorem updateFirst_mem {p : α → Bool} {f : α → α} :
    ∀ (l : List α) (x : α), x ∈ updateFirst p f l →
      x ∈ l ∨ ∃ y, y ∈ l ∧ p y = true ∧ x = f y := by
  intro l
  induction l with
  | nil => intro x hx; simp [updateFirst] at hx
  | cons a rest ih =>
      intro x hx
      by_cases h : p a = true
      · simp [updateFirst, h] at hx
        rcases hx with hx | hx
        · exact Or.inr ⟨a, by simp, h, hx⟩
        · exact Or.inl (by simp [hx])
      · simp [updateFirst, h] at hx
        rcases hx with hx | hx
        · exact Or.inl (by simp [hx])
        · rcases ih x hx with hmem | ⟨y, hy, hpy, hxy⟩
          · exact Or.inl (by simp [hmem])
          · exact Or.inr ⟨y, by simp [hy], hpy, hxy⟩

theorem updateFirst_of_find? {p : α → Bool} {f : α → α} :
    ∀ (l : List α) (e : α), List.find? p l = some e →
      ∃ l₁ l₂, l = l₁ ++ e :: l₂ ∧ (∀ x ∈ l₁, p x = false) ∧
        updateFirst p f l = l₁ ++ f e :: l₂ := by
  intro l
  induction l with
  | nil => intro e he; simp at he
  | cons a rest ih =>
      intro e he
      by_cases h : p a = true
      · rw [List.find?_cons_of_pos _ h] at he
        have hae : a = e := by injection he
        subst hae
        refine ⟨[], rest, by simp, by simp, ?_⟩
        simp [updateFirst, h]
      · rw [List.find?_cons_of_neg _ (by simpa using h)] at he
        obtain ⟨l₁, l₂, hl, hl₁, hu⟩ := ih e he
        refine ⟨a :: l₁, l₂, by simp [hl], ?_, ?_⟩
        · intro x hx
          rcases List.mem_cons.mp hx with hx | hx
          · simpa [hx] using h
          · exact hl₁ x hx
        · simp [updateFirst, h, hu]

theorem setLastMessage_ne_nil (m : String) :
    ∀ l : List StatusTrace, l ≠ [] → setLastMessage m l ≠ [] := by
  intro l hl
  match l with
  | [] => exact absurd rfl hl
  | [x] => simp [setLastMessage]
  | x :: y :: rest => simp [setLastMessage]

/-- Claim C10: the status reporter never retains an empty per-thread
stack — `report_start`, `report_message` and `report_end` each preserve
the invariant that every thread entry holds at least one span;
`report_end` removes a thread's entry the moment its single remaining span
is popped; and `report_end` for a thread with no recorded entry returns
`false` and leaves every stack unchanged. -/
theorem c10_status_stack_invariant :
    (∀ (ss : Stacks) (t : Nat) (sp : String),
      stacksWF ss → stacksWF (report_start t sp ss)) ∧
    (∀ (ss : Stacks) (t : Nat) (m : String),
      stacksWF ss → stacksWF (report_message t m ss)) ∧
    (∀ (ss : Stacks) (t : Nat),
      stacksWF ss → stacksWF (report_end t ss).2) ∧
    (∀ (ss : Stacks) (t : Nat),
      List.find? (fun e => e.1 == t) ss = none → report_end t ss = (false, ss)) ∧
    (∀ (ss : Stacks) (t : Nat) (e : Nat × List StatusTrace),
      List.find? (fun x => x.1 == t) ss = some e → e.2.length = 1 →
        List.find? (fun x => x.1 == t) (report_end t ss).2 = none) := by
  refine ⟨?_, ?_, ?_, ?_, ?_⟩
  · intro ss t sp hwf
    unfold report_start
    by_cases h : List.any ss (fun e => e.1 == t) = true
    · simp only [h, if_true]
      intro x hx
      rcases updateFirst_mem _ x hx with hmem | ⟨y, hy, _, hxy⟩
      · exact hwf x hmem
      · subst hxy; simp
    · simp only [h, if_false]
      intro x hx
      rcases List.mem_append.mp hx with hx | hx
      · exact hwf x hx
      · simp at hx; subst hx; simp
  · intro ss t m hwf
    unfold report_message
    intro x hx
    rcases updateFirst_mem _ x hx with hmem | ⟨y, hy, _, hxy⟩
    · exact hwf x hmem
    · subst hxy
      exact setLastMessage_ne_nil m y.2 (hwf y hy)
  · intro ss t hwf
    unfold report_end
    cases hfind : List.find? (fun e => e.1 == t) ss with
    | none => exact hwf
    | some e =>
        simp only
        by_cases hemp : e.2.dropLast.isEmpty = true
        · simp only [hemp, if_true]
          intro x hx
          have hx' := List.mem_filter.mp hx
          rcases updateFirst_mem _ x hx'.1 with hmem | ⟨y, hy, hpy, hxy⟩
          · exact hwf x hmem
          · exfalso
            have : x.1 == t := by subst hxy; simpa using hpy
            simp [this] at hx'
        · simp only [hemp, if_false]
          obtain ⟨l₁, l₂, hl, _, hu⟩ :=
            updateFirst_of_find? (p := fun en => en.1 == t)
              (f := fun en => (en.1, en.2.dropLast)) ss e hfind
          rw [hu]
          intro x hx
          rcases List.mem_append.mp hx with hx | hx
          · exact hwf x (by simp [hl, hx])
          · rcases List.mem_cons.mp hx with hx | hx
            · subst hx
              simpa [List.isEmpty_iff] using hemp
            · exact hwf x (by simp [hl, hx])
  · intro ss t hfind
    unfold report_end
    rw [hfind]
  · intro ss t e hfind hlen
    unfold report_end
    rw [hfind]
    have hemp : e.2.dropLast.isEmpty = true := by
      have h0 : e.2.dropLast.length = 0 := by rw [List.length_dropLast, hlen]
      have h1 : e.2.dropLast = [] := List.length_eq_zero.mp h0
      simp [h1]
    simp only [hemp, if_true]
    rw [List.find?_eq_none]
    intro x hx
    have := (List.mem_filter.mp hx).2
    simpa using this

/-- Witness for `c10_status_stack_invariant` at a concrete stack map. -/
theorem c10_status_stack_invariant_witness :
    stacksWF (report_start 2 "s" [(1, [⟨"a", "a"⟩])]) ∧
      stacksWF (report_message 1 "m" [(1, [⟨"a", "a"⟩])]) ∧
      stacksWF (report_end 1 [(1, [⟨"a", "a"⟩])]).2 ∧
      report_end 3 [(1, [⟨"a", "a"⟩])] = (false, [(1, [⟨"a", "a"⟩])]) ∧
      List.find? (fun x => x.1 == 1)
        (report_end 1 [(1, [⟨"a", "a"⟩]), (2, [⟨"b", "b"⟩])]).2 = none :=
  ⟨c10_status_stack_invariant.1 [(1, [⟨"a", "a"⟩])] 2 "s" (by unfold stacksWF; decide),
   c10_status_stack_invariant.2.1 [(1, [⟨"a", "a"⟩])] 1 "m" (by unfold stacksWF; decide),
   c10_status_stack_invariant.2.2.1 [(1, [⟨"a", "a"⟩])] 1 (by unfold stacksWF; decide),
   c10_status_stack_invariant.2.2.2.1 [(1, [⟨"a", "a"⟩])] 3 (by decide),
   c10_status_stack_invariant.2.2.2.2 [(1, [⟨"a", "a"⟩]), (2, [⟨"b", "b"⟩])] 1
     (1, [⟨"a", "a"⟩]) (by decide) (by decide)⟩

/-! ## Claim C1 -/

theorem ne_tmp_self (x : String) : ("tmp-" ++ x) ≠ x := by
  intro h
  have hlen := congrArg String.length h
  rw [String.length_append] at hlen
  have h4 : ("tmp-" : String).length = 4 := rfl
  rw [h4] at hlen
  omega

theorem updateFirst_append_last {p : α → Bool} {f : α → α} :
    ∀ (pre : List α) (x : α), (∀ e ∈ pre, p e = false) → p x = true →
      updateFirst p f (pre ++ [x]) = pre ++ [f x] := by
  intro pre
  induction pre with
  | nil => intro x _ hx; simp [updateFirst, hx]
  | cons a rest ih =>
      intro x hpre hx
      have ha : p a = false := hpre a (by simp)
      simp only [List.cons_append, updateFirst, ha]
      simp [ih x (fun e he => hpre e (by simp [he])) hx]

theorem populateTrace_getLastD (tmp : String) :
    ∀ (payload : List String) (pre : FS) (acc : List String),
      (∀ e ∈ pre, (e.1 == tmp) = false) →
      (populateTrace tmp payload (pre ++ [(tmp, acc)])).getLastD
          (pre ++ [(tmp, acc)]) =
        pre ++ [(tmp, acc ++ payload)] := by
  intro payload
  induction payload with
  | nil => intro pre acc _; simp [populateTrace]
  | cons item rest ih =>
      intro pre acc hpre
      have hadd : addItem (pre ++ [(tmp, acc)]) tmp item =
          pre ++ [(tmp, acc ++ [item])] := by
        unfold addItem
        rw [updateFirst_append_last pre (tmp, acc) hpre (by simp)]
      simp only [populateTrace, hadd, List.getLastD_cons]
      rw [ih pre (acc ++ [item]) hpre]
      simp

theorem populateTrace_mem (tmp : String) :
    ∀ (payload : List String) (pre : FS) (acc : List String),
      (∀ e ∈ pre, (e.1 == tmp) = false) →
      ∀ st ∈ populateTrace tmp payload (pre ++ [(tmp, acc)]),
        ∃ l, st = pre ++ [(tmp, l)] := by
  intro payload
  induction payload with
  | nil => intro pre acc _ st hst; simp [populateTrace] at hst
  | cons item rest ih =>
      intro pre acc hpre st hst
      have hadd : addItem (pre ++ [(tmp, acc)]) tmp item =
          pre ++ [(tmp, acc ++ [item])] := by
        unfold addItem
        rw [updateFirst_append_last pre (tmp, acc) hpre (by simp)]
      simp only [populateTrace, hadd] at hst
      rcases List.mem_cons.mp hst with hst | hst
      · exact ⟨acc ++ [item], hst⟩
      · exact ih pre (acc ++ [item]) hpre st hst

/-- Claim C1, counterexample: on a cache root where the finalized
directory *and* a stale `tmp-` directory both exist (e.g. left by a crash
of a concurrent loader), `load` returns successfully through the
early-exit branch without touching the root, so a `tmp-<folder_name>`
directory does remain after a successful load, contrary to the claim's
unconditional no-`tmp-` clause. -/
theorem c1_cache_load_counterexample :
    loadFS Dependency.vst3Proprietary ["item"]
        [("vst3-sdk-proprietary", []), ("tmp-vst3-sdk-proprietary", [])] =
      [("vst3-sdk-proprietary", []), ("tmp-vst3-sdk-proprietary", [])] ∧
    dirExists
        (loadFS Dependency.vst3Proprietary ["item"]
          [("vst3-sdk-proprietary", []), ("tmp-vst3-sdk-proprietary", [])])
        ("tmp-" ++ Dependency.vst3Proprietary.folder_name) = true := by
  constructor
  · rfl
  · rfl

/-- Claim C1, amended: a successful `load` returns
`root/folder_name(dep)`; when the final directory already exists the root
is returned unchanged (so a stale `tmp-` directory from a crashed run may
persist in that case — the no-`tmp-` guarantee holds for loads that
actually populate); on a cache miss, no `tmp-<folder_name>` directory
remains afterward, the final directory holds exactly the populated
payload, and at every intermediate state before the final rename the final
directory does not exist — it appears only via the single rename of the
tmp directory. -/
theorem c1_cache_load :
    ∀ (root : String) (dep : Dependency) (payload : List String) (fs : FS),
      loadPath root dep = root ++ "/" ++ dep.folder_name ∧
      (dirExists fs dep.folder_name = true →
        loadFS dep payload fs = fs ∧ loadTrace dep payload fs = [fs]) ∧
      (dirExists fs dep.folder_name = false →
        dirExists (loadFS dep payload fs) ("tmp-" ++ dep.folder_name) = false ∧
        dirContents (loadFS dep payload fs) dep.folder_name = some payload ∧
        ∀ st ∈ (loadTrace dep payload fs).dropLast,
          dirExists st dep.folder_name = false) := by
  intro root dep payload fs
  refine ⟨rfl, ?_, ?_⟩
  · intro hhit
    constructor
    · unfold loadFS loadTrace
      simp [hhit]
    · unfold loadTrace
      simp [hhit]
  · intro hmiss
    have hmiss' : ∀ e ∈ fs, (e.1 == dep.folder_name) = false := by
      have := List.any_eq_false.mp hmiss
      intro e he
      simpa using this e he
    set final := dep.folder_name with hfinal
    set tmp := "tmp-" ++ dep.folder_name with htmp
    have htmpne : (tmp == final) = false := by
      simp [htmp, hfinal, ne_tmp_self dep.folder_name]
    -- the state after the stale-tmp removal
    set s1 := if dirExists fs tmp then removeDirAll fs tmp else fs with hs1
    have hs1sub : ∀ e ∈ s1, e ∈ fs := by
      intro e he
      rw [hs1] at he
      by_cases h : dirExists fs tmp = true
      · simp [h] at he
        exact (List.mem_filter.mp he).1
      · simp [h] at he
        exact he
    have hs1final : ∀ e ∈ s1, (e.1 == final) = false :=
      fun e he => hmiss' e (hs1sub e he)
    have hs1tmp : ∀ e ∈ s1, (e.1 == tmp) = false := by
      intro e he
      rw [hs1] at he
      by_cases h : dirExists fs tmp = true
      · simp [h] at he
        have := (List.mem_filter.mp he).2
        simpa using this
      · simp [h] at he
        have h' : List.any fs (fun e => e.1 == tmp) = false := Bool.eq_false_iff.mpr h
        have hall := List.any_eq_false.mp h'
        simpa using hall e he
    -- the populated final state before the rename
    have hlast : (populateTrace tmp payload (s1 ++ [(tmp, [])])).getLastD
        (s1 ++ [(tmp, [])]) = s1 ++ [(tmp, payload)] := by
      have := populateTrace_getLastD tmp payload s1 [] hs1tmp
      simpa using this
    have htrace : loadTrace dep payload fs =
        (fs :: s1 :: (s1 ++ [(tmp, [])]) ::
          populateTrace tmp payload (s1 ++ [(tmp, [])])) ++
          [renameDir (s1 ++ [(tmp, payload)]) tmp final] := by
      unfold loadTrace
      rw [if_neg (by simp [hmiss])]
      simp only [← hfinal, ← htmp, ← hs1, createDir, hlast]
    have hrename : renameDir (s1 ++ [(tmp, payload)]) tmp final =
        s1 ++ [(final, payload)] := by
      unfold renameDir removeDirAll dirContents
      rw [List.filter_append, List.find?_append]
      have hfilter : List.filter (fun e => ¬ e.1 == tmp) s1 = s1 :=
        List.filter_eq_self.mpr (fun e he => by simp [hs1tmp e he])
      have hnone : List.find? (fun e => e.1 == tmp) s1 = none :=
        List.find?_eq_none.mpr (fun e he => by simp [hs1tmp e he])
      rw [hfilter, hnone]
      simp
    have hfs : loadFS dep payload fs = s1 ++ [(final, payload)] := by
      unfold loadFS
      rw [htrace, List.getLastD_concat, hrename]
    refine ⟨?_, ?_, ?_⟩
    · rw [hfs]
      unfold dirExists
      rw [List.any_eq_false]
      intro e he
      rcases List.mem_append.mp he with he | he
      · have h1 := hs1tmp e he
        simp at h1 ⊢
        exact h1
      · simp at he
        subst he
        simp only [Prod.fst]
        intro hc
        have : final = tmp := by simpa using hc
        exact ne_tmp_self dep.folder_name (by rw [← htmp, ← hfinal, this])
    · rw [hfs]
      unfold dirContents
      rw [List.find?_append]
      have hnone : List.find? (fun e => e.1 == final) s1 = none :=
        List.find?_eq_none.mpr (fun e he => by simp [hs1final e he])
      rw [hnone]
      simp
    · rw [htrace, List.dropLast_concat]
      intro st hst
      have hnotfinal : ∀ u, (∀ e ∈ u, (e.1 == final) = false) →
          dirExists u final = false := by
        intro u hu
        unfold dirExists
        rw [List.any_eq_false]
        intro e he
        simp [hu e he]
      rcases List.mem_cons.mp hst with hst | hst
      · subst hst; exact hmiss
      rcases List.mem_cons.mp hst with hst | hst
      · subst hst; exact hnotfinal s1 hs1final
      rcases List.mem_cons.mp hst with hst | hst
      · subst hst
        refine hnotfinal _ ?_
        intro e he
        rcases List.mem_append.mp he with he | he
        · exact hs1final e he
        · simp at he; subst he; simpa using htmpne
      · obtain ⟨l, hl⟩ := populateTrace_mem tmp payload s1 [] hs1tmp st hst
        subst hl
        refine hnotfinal _ ?_
        intro e he
        rcases List.mem_append.mp he with he | he
        · exact hs1final e he
        · simp at he; subst he; simpa using htmpne

/-- Witness for `c1_cache_load`: a hit returns the root unchanged, and a
miss populates the final directory and leaves no `tmp-` behind. -/
theorem c1_cache_load_witness :
    (loadFS (Dependency.vst3OSS "c1") ["a"] [("vst3-sdk-c1", ["a"])] =
        [("vst3-sdk-c1", ["a"])]) ∧
      dirExists (loadFS (Dependency.vst3OSS "c1") ["a", "b"] [])
          ("tmp-" ++ (Dependency.vst3OSS "c1").folder_name) = false ∧
      dirContents (loadFS (Dependency.vst3OSS "c1") ["a", "b"] [])
          (Dependency.vst3OSS "c1").folder_name = some ["a", "b"] :=
  ⟨((c1_cache_load "root" (Dependency.vst3OSS "c1") ["a"]
      [("vst3-sdk-c1", ["a"])]).2.1 (by decide)).1,
   ((c1_cache_load "root" (Dependency.vst3OSS "c1") ["a", "b"] []).2.2
      (by decide)).1,
   ((c1_cache_load "root" (Dependency.vst3OSS "c1") ["a", "b"] []).2.2
      (by decide)).2.1⟩

/-! ## Claim C9 -/

theorem find?_filter_self (m : List (String × String)) (k0 : String) :
    List.find? (fun e => e.1 == k0) (m.filter (fun e => ¬ e.1 == k0)) = none := by
  rw [List.find?_eq_none]
  intro x hx
  have := (List.mem_filter.mp hx).2
  simpa using this

theorem find?_filter_ne (k0 k : String) (hk : k ≠ k0) :
    ∀ m : List (String × String),
      List.find? (fun e => e.1 == k) (m.filter (fun e => ¬ e.1 == k0)) =
        List.find? (fun e => e.1 == k) m := by
  intro m
  induction m with
  | nil => simp
  | cons e rest ih =>
      by_cases he : (e.1 == k0) = true
      · have he' : e.1 = k0 := by simpa using he
        have hek : (e.1 == k) = false := by
          rw [he']
          exact beq_eq_false_iff_ne.mpr (fun hc => hk hc.symm)
        have hfil : List.filter (fun x => ¬ x.1 == k0) (e :: rest) =
            List.filter (fun x => ¬ x.1 == k0) rest := by
          simp [List.filter_cons, he']
        rw [hfil, ih, List.find?_cons, hek]
      · have hne : e.1 ≠ k0 := by simpa using he
        have hfil : List.filter (fun x => ¬ x.1 == k0) (e :: rest) =
            e :: List.filter (fun x => ¬ x.1 == k0) rest := by
          simp [List.filter_cons, hne]
        rw [hfil, List.find?_cons, List.find?_cons]
        cases hek : (e.1 == k) with
        | true => rfl
        | false => exact ih

theorem mapLookup_filter (m : List (String × String)) (k0 k : String) :
    mapLookup (m.filter (fun e => ¬ e.1 == k0)) k =
      if k = k0 then none else mapLookup m k := by
  by_cases hk : k = k0
  · subst hk
    simp [mapLookup, find?_filter_self]
  · unfold mapLookup
    rw [find?_filter_ne k0 k hk m, if_neg hk]

theorem cargoArtifactsLoop_spec (td pf : String) (tr : Triple) (ct : CargoCrateType) :
    ∀ (packages : List String) (m : List (String × String))
      (arts : List CargoArtifact),
      cargoArtifactsLoop td pf tr ct packages m = .ok arts →
      arts.length = packages.length ∧
      ∀ (i : Nat) (hi : i < packages.length),
        ∃ art, arts[i]? = some art ∧
          art.package = packages[i] ∧
          cargo_output_path td pf tr packages[i] ct = .ok art.path ∧
          art.native_static_libs =
            (if cargo_normalize_package_name packages[i] ∈
                (packages.take i).map cargo_normalize_package_name
             then none
             else mapLookup m (cargo_normalize_package_name packages[i])) := by
  intro packages
  induction packages with
  | nil =>
      intro m arts h
      unfold cargoArtifactsLoop at h
      have harts : arts = [] := by
        cases arts with
        | nil => rfl
        | cons a rest => simp at h
      subst harts
      exact ⟨rfl, fun i hi => absurd hi (by simp)⟩
  | cons p rest ih =>
      intro m arts h
      unfold cargoArtifactsLoop at h
      cases hpath : cargo_output_path td pf tr p ct with
      | error e => rw [hpath] at h; simp at h
      | ok path =>
          rw [hpath] at h
          cases hloop : cargoArtifactsLoop td pf tr ct rest
              (mapRemove m (cargo_normalize_package_name p)).2 with
          | error e => rw [hloop] at h; simp at h
          | ok tail =>
              rw [hloop] at h
              simp only at h
              have harts : arts =
                  { package := p, path := path,
                    native_static_libs :=
                      (mapRemove m (cargo_normalize_package_name p)).1 } :: tail := by
                cases arts with
                | nil => simp at h
                | cons a r =>
                    have := Except.ok.inj h
                    exact this.symm
              subst harts
              obtain ⟨hlen, hspec⟩ := ih (mapRemove m (cargo_normalize_package_name p)).2 tail hloop
              constructor
              · simp [hlen]
              · intro i hi
                cases i with
                | zero =>
                    refine ⟨{ package := p,
                              path := path,
                              native_static_libs :=
                                (mapRemove m (cargo_normalize_package_name p)).1 },
                      ?_, rfl, ?_, ?_⟩
                    · simp
                    · simpa using hpath
                    · simp [mapRemove]
                | succ i =>
                    have hi' : i < rest.length := by simpa using hi
                    obtain ⟨art, hget, hpkg, hpath', hnat⟩ := hspec i hi'
                    refine ⟨art, by simpa using hget, by simpa using hpkg,
                      by simpa using hpath', ?_⟩
                    rw [hnat]
                    have hm' : (mapRemove m (cargo_normalize_package_name p)).2 =
                        m.filter (fun e => ¬ e.1 == cargo_normalize_package_name p) := rfl
                    rw [hm', mapLookup_filter]
                    have hgetc : (p :: rest)[i + 1] = rest[i] := by simp
                    have htake : ((p :: rest).take (i + 1)).map cargo_normalize_package_name =
                        cargo_normalize_package_name p ::
                          (rest.take i).map cargo_normalize_package_name := by
                      simp
                    rw [hgetc, htake]
                    by_cases hcase : cargo_normalize_package_name rest[i] =
                        cargo_normalize_package_name p
                    · simp [hcase]
                    · by_cases hmem : cargo_normalize_package_name rest[i] ∈
                          (rest.take i).map cargo_normalize_package_name
                      · simp [hcase, hmem]
                      · simp [hcase, hmem]

/-- Claim C9, counterexample: with requested packages `a-b` and `a_b`
(which normalize to the same name `a_b`) and a structured stream holding
one `native-static-libs` record for `a_b`, the second artifact's
native-link-list field is `none` even though the stream contained a record
whose package name equals the requested name with `-` replaced by `_` —
`HashMap::remove` hands the entry to the first package only. -/
theorem c9_cargo_artifacts_counterexample :
    cargoArtifacts "t" "release" ⟨.x86_64, .unknown, .linux, .gnu⟩
        CargoCrateType.staticlib ["a-b", "a_b"]
        [some (CargoMessage.nativeStaticLibs "a_b" "x")] =
      Except.ok
        [{ package := "a-b", path := "t/x86_64-unknown-linux-gnu/release/liba_b.a",
           native_static_libs := some "x" },
         { package := "a_b", path := "t/x86_64-unknown-linux-gnu/release/liba_b.a",
           native_static_libs := none }] ∧
    mapLookup (collectMessages [some (CargoMessage.nativeStaticLibs "a_b" "x")]).2
        (cargo_normalize_package_name "a_b") = some "x" := by
  exact ⟨rfl, rfl⟩

/-- Claim C9, amended: a successful `cargo_build` returns exactly one
artifact per requested package, in request order, with the path predicted
by `cargo_output_path` (not parsed from compiler output); the
native-link-list field holds the stream's entry for the package name
normalized by replacing `-` with `_`, except that a package whose
normalized name already occurred earlier in the request list gets `none`
(the map entry is removed by the earlier package). -/
theorem c9_cargo_artifacts :
    ∀ (td pf : String) (tr : Triple) (ct : CargoCrateType)
      (packages : List String) (lines : List (Option CargoMessage))
      (arts : List CargoArtifact),
      cargoArtifacts td pf tr ct packages lines = .ok arts →
      arts.length = packages.length ∧
      ∀ (i : Nat) (hi : i < packages.length),
        ∃ art, arts[i]? = some art ∧
          art.package = packages[i] ∧
          cargo_output_path td pf tr packages[i] ct = .ok art.path ∧
          art.native_static_libs =
            (if cargo_normalize_package_name packages[i] ∈
                (packages.take i).map cargo_normalize_package_name
             then none
             else mapLookup (collectMessages lines).2
               (cargo_normalize_package_name packages[i])) := by
  intro td pf tr ct packages lines arts h
  exact cargoArtifactsLoop_spec td pf tr ct packages (collectMessages lines).2 arts h

/-- Witness for `c9_cargo_artifacts` at a concrete request. -/
theorem c9_cargo_artifacts_witness :
    ([{ package := "demo", path := "t/x86_64-apple-darwin/release/libdemo.dylib",
        native_static_libs := none }] : List CargoArtifact).length =
      (["demo"] : List String).length :=
  (c9_cargo_artifacts "t" "release" ⟨.x86_64, .apple, .darwin, .unknown⟩
    CargoCrateType.cdylib ["demo"] [] _ rfl).1

/-! ## Claim C4 -/

theorem leadsList_length :
    ∀ (pat l : List Char), leadsList pat l = true → pat.length ≤ l.length := by
  intro pat
  induction pat with
  | nil => intro l _; simp
  | cons a as ih =>
      intro l h
      cases l with
      | nil => simp [leadsList] at h
      | cons b bs =>
          simp only [leadsList, Bool.and_eq_true] at h
          have := ih bs h.2
          simp only [List.length_cons]
          omega

theorem leadsList_append_of_true :
    ∀ (pat l g : List Char), leadsList pat l = true →
      leadsList pat (l ++ g) = true := by
  intro pat
  induction pat with
  | nil => intro l g _; simp [leadsList]
  | cons a as ih =>
      intro l g h
      cases l with
      | nil => simp [leadsList] at h
      | cons b bs =>
          simp only [leadsList, Bool.and_eq_true] at h
          simp only [List.cons_append, leadsList, Bool.and_eq_true]
          exact ⟨h.1, ih bs g h.2⟩

theorem leadsList_append_of_le :
    ∀ (pat l g : List Char), pat.length ≤ l.length →
      leadsList pat (l ++ g) = leadsList pat l := by
  intro pat
  induction pat with
  | nil => intro l g _; simp [leadsList]
  | cons a as ih =>
      intro l g h
      cases l with
      | nil => simp at h
      | cons b bs =>
          simp only [List.cons_append, leadsList]
          have hrec := ih bs g (by simpa using h)
          simp only [List.append_eq] at hrec ⊢
          rw [hrec]

theorem leadsList_eq_append :
    ∀ (pat l : List Char), leadsList pat l = true → ∃ tail, l = pat ++ tail := by
  intro pat
  induction pat with
  | nil => intro l _; exact ⟨l, rfl⟩
  | cons a as ih =>
      intro l h
      cases l with
      | nil => simp [leadsList] at h
      | cons b bs =>
          simp only [leadsList, Bool.and_eq_true] at h
          obtain ⟨tail, htail⟩ := ih bs h.2
          have hab : a = b := by simpa using h.1
          exact ⟨tail, by simp [hab, htail]⟩

theorem firstOccAux_nil (pat : List Char) (i : Nat) :
    firstOccAux pat [] i = if leadsList pat [] then some i else none := by
  rw [firstOccAux.eq_def]

theorem firstOccAux_cons (pat : List Char) (c : Char) (t : List Char) (i : Nat) :
    firstOccAux pat (c :: t) i =
      if leadsList pat (c :: t) then some i else firstOccAux pat t (i + 1) := by
  rw [firstOccAux.eq_def]

theorem firstOccAux_bounds (pat : List Char) :
    ∀ (l : List Char) (i p : Nat), firstOccAux pat l i = some p →
      i ≤ p ∧ (p - i) + pat.length ≤ l.length ∧
        leadsList pat (l.drop (p - i)) = true := by
  intro l
  induction l with
  | nil =>
      intro i p h
      rw [firstOccAux_nil] at h
      by_cases hl : leadsList pat [] = true
      · rw [if_pos hl] at h
        have hp : i = p := Option.some.inj h
        subst hp
        have hlen : pat.length ≤ 0 := by simpa using leadsList_length pat [] hl
        refine ⟨le_refl i, ?_, ?_⟩
        · simpa using hlen
        · simpa using hl
      · rw [if_neg hl] at h
        exact absurd h (by simp)
  | cons c rest ih =>
      intro i p h
      rw [firstOccAux_cons] at h
      by_cases hl : leadsList pat (c :: rest) = true
      · rw [if_pos hl] at h
        have hp : i = p := Option.some.inj h
        subst hp
        have hlen := leadsList_length pat (c :: rest) hl
        refine ⟨le_refl i, by simpa using hlen, by simpa using hl⟩
      · rw [if_neg hl] at h
        obtain ⟨h1, h2, h3⟩ := ih (i + 1) p h
        refine ⟨by omega, by simp only [List.length_cons]; omega, ?_⟩
        have hdrop : (c :: rest).drop (p - i) = rest.drop (p - (i + 1)) := by
          have hpi : p - i = (p - (i + 1)) + 1 := by omega
          rw [hpi]
          rfl
        rw [hdrop]
        exact h3

theorem firstOccAux_append (pat g : List Char) :
    ∀ (l : List Char) (i p : Nat), firstOccAux pat l i = some p →
      (p - i) + pat.length ≤ l.length →
      firstOccAux pat (l ++ g) i = some p := by
  intro l
  induction l with
  | nil =>
      intro i p h hfit
      rw [firstOccAux_nil] at h
      by_cases hl : leadsList pat [] = true
      · rw [if_pos hl] at h
        have hnil : pat = [] := by
          cases pat with
          | nil => rfl
          | cons a as => simp [leadsList] at hl
        subst hnil
        simp only [List.nil_append]
        cases g with
        | nil => rw [firstOccAux_nil, if_pos hl]; exact h
        | cons x xs => rw [firstOccAux_cons, if_pos (by simp [leadsList])]; exact h
      · rw [if_neg hl] at h
        exact absurd h (by simp)
  | cons c rest ih =>
      intro i p h hfit
      rw [firstOccAux_cons] at h
      by_cases hl : leadsList pat (c :: rest) = true
      · rw [if_pos hl] at h
        rw [show (c :: rest) ++ g = c :: (rest ++ g) from rfl, firstOccAux_cons]
        have hlg : leadsList pat (c :: (rest ++ g)) = true := by
          have := leadsList_append_of_true pat (c :: rest) g hl
          simpa using this
        rw [if_pos hlg]
        exact h
      · rw [if_neg hl] at h
        have hbounds := firstOccAux_bounds pat rest (i + 1) p h
        rw [show (c :: rest) ++ g = c :: (rest ++ g) from rfl, firstOccAux_cons]
        have hple : pat.length ≤ (c :: rest).length := by
          simp only [List.length_cons]
          omega
        have hlg : leadsList pat (c :: (rest ++ g)) = false := by
          have hle := leadsList_append_of_le pat (c :: rest) g hple
          simp only [List.cons_append] at hle
          rw [hle]
          exact Bool.eq_false_iff.mpr hl
        rw [if_neg (by simp [hlg])]
        exact ih (i + 1) p h (by omega)

/-- Whether a string (as characters) ends in `gnu`. -/
def endsGnu (l : List Char) : Bool :=
  l.drop (l.length - 3) == ['g', 'n', 'u']

theorem parseTriple_mem (s : String) (t : Triple) :
    parseTriple s = some t → ∃ e ∈ tripleTable, s = e.1 ∧ t = e.2 := by
  unfold parseTriple
  intro h
  obtain ⟨e, he, hmap⟩ := Option.map_eq_some'.mp h
  refine ⟨e, List.mem_of_find?_eq_some he, ?_, hmap.symm⟩
  have := List.find?_some he
  have he1 : e.1 = s := by simpa using this
  exact he1.symm

theorem not_universal_of_dot (r : String) (hd : '.' ∈ r.data) :
    eqIgnoreCase r "universal-apple-darwin" = false := by
  rw [Bool.eq_false_iff]
  intro htrue
  unfold eqIgnoreCase at htrue
  have heq : r.data.map toLowerAscii =
      ("universal-apple-darwin" : String).data.map toLowerAscii := by
    simpa using htrue
  have hmem : toLowerAscii '.' ∈ r.data.map toLowerAscii :=
    List.mem_map_of_mem toLowerAscii hd
  rw [heq] at hmem
  have hdot : toLowerAscii '.' = '.' := by decide
  rw [hdot] at hmem
  exact absurd hmem (by decide)

theorem tripleTable_plain_round :
    ∀ e ∈ tripleTable,
      parseBuildTarget (renderBuildTarget (BuildTarget.triple e.2)) =
        some (BuildTarget.triple e.2) := by
  decide

theorem tripleTable_gnu_facts :
    ∀ e ∈ tripleTable, endsGnu e.1.data = true →
      parseTriple (displayTriple e.2) = some e.2 ∧
      3 ≤ (displayTriple e.2).data.length ∧
      firstOcc gnuDot ((displayTriple e.2).data ++ ['.']) =
        some ((displayTriple e.2).data.length - 3) := by
  decide

theorem parseBuildTarget_glibc_branch (r : String) (i : Nat) (t : Triple)
    (hu : eqIgnoreCase r "universal-apple-darwin" = false)
    (ho : firstOcc gnuDot r.data = some i)
    (hp : parseTriple (String.mk (r.data.take (i + 3))) = some t) :
    parseBuildTarget r =
      some (BuildTarget.tripleGlibc t (String.mk (r.data.drop (i + 4)))) := by
  unfold parseBuildTarget
  rw [if_neg (by simp [hu]), ho]
  show (parseTriple (String.mk (r.data.take (i + 3)))).map
      (fun t => BuildTarget.tripleGlibc t (String.mk (r.data.drop (i + 4)))) =
    some (BuildTarget.tripleGlibc t (String.mk (r.data.drop (i + 4))))
  rw [hp]
  rfl

/-- Claim C4: whenever `BuildTarget` parsing succeeds on a string `s`,
parsing the rendered form of the parsed value yields the same value —
`parse (render (parse s)) = parse s` — across all three shapes (plain
triple, triple with libc version after `gnu.`, case-insensitive
`universal-apple-darwin`), over the modelled finite triple universe. -/
theorem c4_parse_render_round_trip :
    ∀ (s : String) (t : BuildTarget),
      parseBuildTarget s = some t →
      parseBuildTarget (renderBuildTarget t) = some t := by
  intro s t h
  unfold parseBuildTarget at h
  by_cases hu : eqIgnoreCase s "universal-apple-darwin" = true
  · rw [if_pos hu] at h
    have ht : t = BuildTarget.appleUniversal := (Option.some.inj h).symm
    subst ht
    decide
  · rw [if_neg hu] at h
    cases hocc : firstOcc gnuDot s.data with
    | none =>
        rw [hocc] at h
        have h' : (parseTriple s).map BuildTarget.triple = some t := h
        obtain ⟨t', ht', hmap⟩ := Option.map_eq_some'.mp h'
        obtain ⟨e, he, hse, hte⟩ := parseTriple_mem s t' ht'
        rw [← hmap, hte]
        exact tripleTable_plain_round e he
    | some i =>
        rw [hocc] at h
        have h' : (parseTriple (String.mk (s.data.take (i + 3)))).map
            (fun t => BuildTarget.tripleGlibc t (String.mk (s.data.drop (i + 4)))) =
            some t := h
        obtain ⟨t', ht', hmap⟩ := Option.map_eq_some'.mp h'
        obtain ⟨e, he, hke, hte⟩ := parseTriple_mem _ t' ht'
        -- decompose `s` around the first occurrence of "gnu."
        unfold firstOcc at hocc
        obtain ⟨_, hfit, hlead⟩ := firstOccAux_bounds gnuDot s.data 0 i hocc
        rw [Nat.sub_zero] at hfit hlead
        obtain ⟨tail, htail⟩ := leadsList_eq_append gnuDot _ hlead
        have hilen : i ≤ s.data.length := by
          have : gnuDot.length = 4 := rfl
          omega
        have halen : (s.data.take i).length = i := by
          rw [List.length_take]
          omega
        have hsplit : s.data = s.data.take i ++ (gnuDot ++ tail) := by
          conv_lhs => rw [← List.take_append_drop i s.data]
          rw [htail]
        have htake : s.data.take (i + 3) = s.data.take i ++ ['g', 'n', 'u'] := by
          conv_lhs => rw [hsplit]
          rw [List.take_append_eq_append_take]
          rw [List.take_of_length_le (by rw [halen]; omega)]
          rw [halen]
          have h3 : i + 3 - i = 3 := by omega
          rw [h3]
          simp [gnuDot]
        have he1data : e.1.data = s.data.take i ++ ['g', 'n', 'u'] := by
          rw [← hke, htake]
        have hgnu : endsGnu e.1.data = true := by
          unfold endsGnu
          rw [he1data]
          have hlen : (s.data.take i ++ ['g', 'n', 'u']).length - 3 =
              (s.data.take i).length := by
            simp [List.length_append]
          rw [hlen, List.drop_left]
          simp
        obtain ⟨hlook, hlen3, hoccdisp⟩ := tripleTable_gnu_facts e he hgnu
        -- reparse the rendered form
        rw [← hmap, hte]
        set c := displayTriple e.2 with hc
        set gstr := String.mk (s.data.drop (i + 4)) with hg
        have hrender : renderBuildTarget (BuildTarget.tripleGlibc e.2 gstr) =
            c ++ "." ++ gstr := rfl
        rw [hrender]
        have hrdata : (c ++ "." ++ gstr).data = (c.data ++ ['.']) ++ gstr.data := by
          rw [String.data_append, String.data_append]
        have hL3 : 3 ≤ c.data.length := hlen3
        have hdotmem : '.' ∈ (c ++ "." ++ gstr).data := by
          rw [hrdata]
          exact List.mem_append.mpr (Or.inl (List.mem_append.mpr (Or.inr (by simp))))
        have huniv := not_universal_of_dot (c ++ "." ++ gstr) hdotmem
        have hoccr : firstOcc gnuDot (c ++ "." ++ gstr).data =
            some (c.data.length - 3) := by
          rw [hrdata]
          unfold firstOcc at hoccdisp ⊢
          refine firstOccAux_append gnuDot gstr.data (c.data ++ ['.']) 0
            (c.data.length - 3) hoccdisp ?_
          have h4 : gnuDot.length = 4 := rfl
          have hlen1 : (c.data ++ ['.']).length = c.data.length + 1 := by simp
          rw [Nat.sub_zero, h4, hlen1]
          omega
        have htake2 : (c ++ "." ++ gstr).data.take ((c.data.length - 3) + 3) =
            c.data := by
          rw [hrdata, List.append_assoc]
          have h33 : (c.data.length - 3) + 3 = c.data.length := by omega
          rw [h33]
          exact List.take_left' rfl
        have hdrop2 : (c ++ "." ++ gstr).data.drop ((c.data.length - 3) + 4) =
            gstr.data := by
          rw [hrdata]
          have h34 : (c.data.length - 3) + 4 = c.data.length + 1 := by omega
          rw [h34]
          refine List.drop_left' ?_
          simp
        rw [parseBuildTarget_glibc_branch (c ++ "." ++ gstr) (c.data.length - 3)
          e.2 huniv hoccr (by rw [htake2]; exact hlook)]
        rw [hdrop2]

/-- Witness for `c4_parse_render_round_trip` at a concrete target string
of each shape. -/
theorem c4_parse_render_round_trip_witness :
    parseBuildTarget
        (renderBuildTarget (BuildTarget.tripleGlibc
          ⟨.x86_64, .unknown, .linux, .gnu⟩ "2.17")) =
      some (BuildTarget.tripleGlibc ⟨.x86_64, .unknown, .linux, .gnu⟩ "2.17") ∧
    parseBuildTarget (renderBuildTarget BuildTarget.appleUniversal) =
      some BuildTarget.appleUniversal :=
  ⟨c4_parse_render_round_trip "x86_64-unknown-linux-gnu.2.17"
      (BuildTarget.tripleGlibc ⟨.x86_64, .unknown, .linux, .gnu⟩ "2.17")
      (by decide),
   c4_parse_render_round_trip "UNIVERSAL-APPLE-DARWIN" BuildTarget.appleUniversal
      (by decide)⟩

end Picobundler
